import Mathlib

/-!
Verification development for the funding-rate reconciliation dashboard.

The repository has two variants of the same program:
  src/app.py           (modelled in namespace App)
  src/streamlit_app.py (modelled in namespace SL)

Rates are modelled as rationals; an absent rate (Python None) is Option.none.
An HTTP attempt against one endpoint is abstracted by the outcome that the
fetch code can observe: a transport-level exception, a non-success status, a
payload whose decoding raises, or a decoded payload that either carries a
usable funding rate or does not.
-/

/-- Observable outcome of one HTTP request attempt against one endpoint.
`transportError` covers a raised request exception (timeout, connection
failure); `httpError` a response with a non-success status code; `malformed`
a response whose decoding raises (missing key accessed with brackets, a
field that does not convert to float); `ok v` a decoded response, where
`v` is `some r` when the expected funding-rate field is present and usable
and `none` when the response is well formed but carries no usable rate. -/
inductive Attempt where
  | transportError : Attempt
  | httpError (code : ℕ) : Attempt
  | malformed : Attempt
  | ok (payload : Option ℚ) : Attempt

/-- The rate an attempt yields when it completes without raising and the
field is present; `none` otherwise. -/
def attemptValue : Attempt → Option ℚ
  | Attempt.ok v => v
  | _ => none

/-- Whether the attempt raises an exception in code that does not guard the
status code and accesses fields with brackets (the src/app.py style). -/
def attemptRaises : Attempt → Bool
  | Attempt.transportError => true
  | Attempt.httpError _ => true
  | Attempt.malformed => true
  | Attempt.ok _ => false

namespace App

/-- src/app.py get_binance_funding: one try block wraps both the premium
index request and the funding-history fallback; raise_for_status and any
decoding error raise into the except clause, which returns None. The
fallback request is reached only when the premium request succeeds but the
payload lacks the lastFundingRate field (or is empty). -/
def get_binance_funding (premium history : Attempt) : Option ℚ :=
  match premium with
  | Attempt.ok (some rate) => some rate
  | Attempt.ok none =>
      match history with
      | Attempt.ok v => v
      | _ => none
  | _ => none

/-- src/app.py get_bybit_funding: same single-try structure over the tickers
request and the funding-history fallback; retCode lookup, list indexing and
float conversion raise into the except clause, which returns None. -/
def get_bybit_funding (tickers history : Attempt) : Option ℚ :=
  match tickers with
  | Attempt.ok (some rate) => some rate
  | Attempt.ok none =>
      match history with
      | Attempt.ok v => v
      | _ => none
  | _ => none

end App

namespace SL

/-- src/streamlit_app.py get_binance_funding: three strategies (premium
index, alternative URL, funding history), each in its own try block with a
status-code guard and dict.get access, so every failure mode of a strategy
falls through to the next one; None only after all three fail. -/
def get_binance_funding (a1 a2 a3 : Attempt) : Option ℚ :=
  match attemptValue a1 with
  | some rate => some rate
  | none =>
      match attemptValue a2 with
      | some rate => some rate
      | none => attemptValue a3

/-- src/streamlit_app.py get_bybit_funding: two strategies (tickers, funding
history), each in its own try block with a status-code guard, so every
failure mode of the first falls through to the second. -/
def get_bybit_funding (a1 a2 : Attempt) : Option ℚ :=
  match attemptValue a1 with
  | some rate => some rate
  | none => attemptValue a2

end SL

/-- Round a rational to the nearest integer, ties to even, matching the
rounding used by Python fixed-point float formatting on decimal values. -/
def roundHalfEven (q : ℚ) : ℤ :=
  let n := ⌊q⌋
  let f := q - (n : ℚ)
  if f < 1/2 then n
  else if 1/2 < f then n + 1
  else if n % 2 = 0 then n else n + 1

/-- Left-pad a digit string with zeros up to width `nd`. -/
def padZeros (nd : ℕ) (s : String) : String :=
  String.mk (List.replicate (nd - s.length) '0') ++ s

/-- Python fixed-point formatting with `nd` digits after the point
(the format spec .4f or .5f), on a rational value. -/
def fixedFmt (nd : ℕ) (x : ℚ) : String :=
  let scaled := (roundHalfEven (|x| * 10 ^ nd)).toNat
  let ip := scaled / 10 ^ nd
  let fp := scaled % 10 ^ nd
  (if x < 0 then "-" else "") ++ Nat.repr ip ++ "." ++ padZeros nd (Nat.repr fp)

/-- Fuel-driven base-10 logarithm on naturals: for n at least 1 this is the
number of digits of n minus one. Written with explicit fuel so that it
reduces in the kernel. -/
def log10fuel : ℕ → ℕ → ℕ
  | 0, _ => 0
  | fuel + 1, n => if n < 10 then 0 else log10fuel fuel (n / 10) + 1

/-- Smallest k (up to the fuel bound) with a * 10 ^ k at least b; used for
the exponent of a rational below one in scientific formatting. -/
def findExp (a b : ℕ) : ℕ → ℕ → ℕ
  | 0, k => k
  | fuel + 1, k => if b ≤ a * 10 ^ k then k else findExp a b fuel (k + 1)

/-- Floor of the base-10 logarithm of a positive rational. -/
def log10floor (m : ℚ) : ℤ :=
  if 1 ≤ m then (log10fuel ⌊m⌋.toNat ⌊m⌋.toNat : ℤ)
  else -(findExp m.num.toNat m.den m.den 0 : ℤ)

/-- Python scientific formatting with two digits after the point (the
format spec .2e), on a rational value: mantissa in [1, 10) rounded
half-to-even, a carried mantissa of 10.00 bumps the exponent, and the
exponent is signed and padded to at least two digits. -/
def sciFmt2 (p : ℚ) : String :=
  if p = 0 then "0.00e+00"
  else
    let m := |p|
    let e := log10floor m
    let scaled := (roundHalfEven (m * 10 ^ (2 - e))).toNat
    let scaled2 := if 1000 ≤ scaled then scaled / 10 else scaled
    let e2 := if 1000 ≤ scaled then e + 1 else e
    let mant := Nat.repr (scaled2 / 100) ++ "." ++ padZeros 2 (Nat.repr (scaled2 % 100))
    let expStr := (if e2 < 0 then "-" else "+") ++ padZeros 2 (Nat.repr e2.natAbs)
    (if p < 0 then "-" else "") ++ mant ++ "e" ++ expStr

/-- format_funding_rate, identical in both source files: None renders as
ERR; otherwise the rate is converted to a percentage and formatted by
magnitude with four decimals, five decimals, or scientific form. -/
def format_funding_rate : Option ℚ → String
  | none => "ERR"
  | some rate =>
    let percentage := rate * 100
    if |percentage| ≥ 1/1000 then fixedFmt 4 percentage ++ "%"
    else if |percentage| ≥ 1/10000 then fixedFmt 5 percentage ++ "%"
    else sciFmt2 percentage ++ "%"

/-- The four display categories of a rate cell, named as in the spec. -/
inductive RateColor where
  | positive : RateColor
  | negative : RateColor
  | neutral : RateColor
  | error : RateColor
deriving DecidableEq

/-- The classification implemented by the branch conditions of
get_rate_color in src/app.py (and inlined in highlight_rows in
src/streamlit_app.py): None is an error, then the sign decides. -/
def classify_color : Option ℚ → RateColor
  | none => RateColor.error
  | some rate =>
      if rate > 0 then RateColor.positive
      else if rate < 0 then RateColor.negative
      else RateColor.neutral

/-- The CSS string each category renders as; error and negative share the
red color in the source. -/
def colorOf : RateColor → String
  | RateColor.positive => "color: #51cf66;"
  | RateColor.negative => "color: #ff6b6b;"
  | RateColor.neutral => "color: #868e96;"
  | RateColor.error => "color: #ff6b6b;"

/-- src/app.py get_rate_color, with its exact branch structure. -/
def get_rate_color : Option ℚ → String
  | none => "color: #ff6b6b;"
  | some rate =>
      if rate > 0 then "color: #51cf66;"
      else if rate < 0 then "color: #ff6b6b;"
      else "color: #868e96;"

/-- One table row as both refresh loops build it: display strings plus the
raw optional rates and raw optional absolute difference. -/
structure Row where
  symbol : String
  binance : String
  bybit : String
  absDiff : String
  binanceRaw : Option ℚ
  bybitRaw : Option ℚ
  absDiffRaw : Option ℚ

/-- The mutable state of one refresh cycle: the accumulated rows and the
aggregate counters. -/
structure RefreshState where
  rows : List Row
  totalSymbols : ℕ
  errorCount : ℕ
  maxDiff : ℚ
  maxDiffSymbol : String

/-- The state both loops start from: no rows, zero counters, maximum
difference 0 and empty owning symbol. -/
def initState : RefreshState :=
  { rows := [], totalSymbols := 0, errorCount := 0, maxDiff := 0, maxDiffSymbol := "" }

/-- The absolute cross-exchange difference a symbol contributes when both
fetches resolve; none when either side is unavailable. -/
def resolvedDiff (bF yF : String → Option ℚ) (s : String) : Option ℚ :=
  match bF s, yF s with
  | some br, some yr => some |br - yr|
  | _, _ => none

namespace App

/-- The row src/app.py appends for one symbol: on success the formatted
strings plus raw values; on error the literal ERR strings with every raw
field None. -/
def mkRow (bF yF : String → Option ℚ) (sym : String) : Row :=
  match bF sym, yF sym with
  | some br, some yr =>
      { symbol := sym
        binance := format_funding_rate (some br)
        bybit := format_funding_rate (some yr)
        absDiff := format_funding_rate (some |br - yr|)
        binanceRaw := some br
        bybitRaw := some yr
        absDiffRaw := some |br - yr| }
  | _, _ =>
      { symbol := sym
        binance := "ERR"
        bybit := "ERR"
        absDiff := "ERR"
        binanceRaw := none
        bybitRaw := none
        absDiffRaw := none }

/-- One iteration of the src/app.py refresh loop body: bump the symbol
counter, fetch both rates, then either update the running maximum and
append a success row, or bump the error counter and append an all-ERR row. -/
def refreshStep (bF yF : String → Option ℚ) (st : RefreshState) (sym : String) :
    RefreshState :=
  let st1 : RefreshState := { st with totalSymbols := st.totalSymbols + 1 }
  match bF sym, yF sym with
  | some br, some yr =>
      let diff := |br - yr|
      let st2 : RefreshState :=
        if st1.maxDiff < diff then
          { st1 with maxDiff := diff, maxDiffSymbol := sym }
        else st1
      { st2 with rows := st2.rows ++ [mkRow bF yF sym] }
  | _, _ =>
      { st1 with
          errorCount := st1.errorCount + 1
          rows := st1.rows ++ [mkRow bF yF sym] }

/-- The src/app.py refresh loop over the symbol list. -/
def refreshLoop (bF yF : String → Option ℚ) :
    RefreshState → List String → RefreshState
  | st, [] => st
  | st, sym :: rest => refreshLoop bF yF (refreshStep bF yF st sym) rest

/-- One full src/app.py refresh cycle from the initial state. -/
def refresh (bF yF : String → Option ℚ) (syms : List String) : RefreshState :=
  refreshLoop bF yF initState syms

end App

namespace SL

/-- The row src/streamlit_app.py appends for one symbol: on success the
same shape as src/app.py; on error each side keeps its own fetched value
in the raw field, the display string is ERR only for the missing side, and
the difference fields are ERR and None. -/
def mkRow (bF yF : String → Option ℚ) (sym : String) : Row :=
  match bF sym, yF sym with
  | some br, some yr =>
      { symbol := sym
        binance := format_funding_rate (some br)
        bybit := format_funding_rate (some yr)
        absDiff := format_funding_rate (some |br - yr|)
        binanceRaw := some br
        bybitRaw := some yr
        absDiffRaw := some |br - yr| }
  | _, _ =>
      { symbol := sym
        binance :=
          match bF sym with
          | none => "ERR"
          | some br => format_funding_rate (some br)
        bybit :=
          match yF sym with
          | none => "ERR"
          | some yr => format_funding_rate (some yr)
        absDiff := "ERR"
        binanceRaw := bF sym
        bybitRaw := yF sym
        absDiffRaw := none }

/-- One iteration of the src/streamlit_app.py refresh loop body; the
aggregate updates are identical to src/app.py, only the error row differs. -/
def refreshStep (bF yF : String → Option ℚ) (st : RefreshState) (sym : String) :
    RefreshState :=
  let st1 : RefreshState := { st with totalSymbols := st.totalSymbols + 1 }
  match bF sym, yF sym with
  | some br, some yr =>
      let diff := |br - yr|
      let st2 : RefreshState :=
        if st1.maxDiff < diff then
          { st1 with maxDiff := diff, maxDiffSymbol := sym }
        else st1
      { st2 with rows := st2.rows ++ [mkRow bF yF sym] }
  | _, _ =>
      { st1 with
          errorCount := st1.errorCount + 1
          rows := st1.rows ++ [mkRow bF yF sym] }

/-- The src/streamlit_app.py refresh loop over the symbol list. -/
def refreshLoop (bF yF : String → Option ℚ) :
    RefreshState → List String → RefreshState
  | st, [] => st
  | st, sym :: rest => refreshLoop bF yF (refreshStep bF yF st sym) rest

/-- One full src/streamlit_app.py refresh cycle from the initial state. -/
def refresh (bF yF : String → Option ℚ) (syms : List String) : RefreshState :=
  refreshLoop bF yF initState syms

end SL

/-- The aggregate counters both loops thread through the iteration,
abstracted away from the rows. -/
structure Agg where
  total : ℕ
  errors : ℕ
  maxDiff : ℚ
  maxSym : String

/-- Projection of a refresh state onto its aggregate counters. -/
def projAgg (st : RefreshState) : Agg :=
  { total := st.totalSymbols, errors := st.errorCount
    maxDiff := st.maxDiff, maxSym := st.maxDiffSymbol }

/-- The shared aggregate update of one loop iteration. -/
def aggStep (bF yF : String → Option ℚ) (a : Agg) (sym : String) : Agg :=
  let a1 : Agg := { a with total := a.total + 1 }
  match bF sym, yF sym with
  | some br, some yr =>
      let diff := |br - yr|
      if a1.maxDiff < diff then { a1 with maxDiff := diff, maxSym := sym } else a1
  | _, _ => { a1 with errors := a1.errors + 1 }

/-- The shared aggregate loop. -/
def aggLoop (bF yF : String → Option ℚ) : Agg → List String → Agg
  | a, [] => a
  | a, sym :: rest => aggLoop bF yF (aggStep bF yF a sym) rest

/-- Demo fetch outcome for exchange A in the end-to-end scenario: BTCUSDT
resolves to 0.0001, everything else is unavailable. -/
def demoBinance (s : String) : Option ℚ :=
  if s = "BTCUSDT" then some (1/10000) else none

/-- Demo fetch outcome for exchange B in the end-to-end scenario: BTCUSDT
resolves to 0.00015, everything else is unavailable. -/
def demoBybit (s : String) : Option ℚ :=
  if s = "BTCUSDT" then some (15/100000) else none

/-! ## Helper lemmas shared by several claims -/

theorem app_refreshStep_rows (bF yF : String → Option ℚ) (st : RefreshState)
    (sym : String) :
    (App.refreshStep bF yF st sym).rows = st.rows ++ [App.mkRow bF yF sym] := by
  unfold App.refreshStep
  rcases hb : bF sym with _ | br <;> rcases hy : yF sym with _ | yr <;>
    simp only [hb, hy] <;> try rfl
  split <;> rfl

theorem sl_refreshStep_rows (bF yF : String → Option ℚ) (st : RefreshState)
    (sym : String) :
    (SL.refreshStep bF yF st sym).rows = st.rows ++ [SL.mkRow bF yF sym] := by
  unfold SL.refreshStep
  rcases hb : bF sym with _ | br <;> rcases hy : yF sym with _ | yr <;>
    simp only [hb, hy] <;> try rfl
  split <;> rfl

theorem app_refreshStep_agg (bF yF : String → Option ℚ) (st : RefreshState)
    (sym : String) :
    projAgg (App.refreshStep bF yF st sym) = aggStep bF yF (projAgg st) sym := by
  unfold App.refreshStep aggStep projAgg
  rcases hb : bF sym with _ | br <;> rcases hy : yF sym with _ | yr <;>
    simp only [hb, hy] <;> try rfl
  split <;> rfl

theorem sl_refreshStep_agg (bF yF : String → Option ℚ) (st : RefreshState)
    (sym : String) :
    projAgg (SL.refreshStep bF yF st sym) = aggStep bF yF (projAgg st) sym := by
  unfold SL.refreshStep aggStep projAgg
  rcases hb : bF sym with _ | br <;> rcases hy : yF sym with _ | yr <;>
    simp only [hb, hy] <;> try rfl
  split <;> rfl

theorem app_refreshLoop_rows (bF yF : String → Option ℚ) (syms : List String) :
    ∀ st : RefreshState,
      (App.refreshLoop bF yF st syms).rows = st.rows ++ syms.map (App.mkRow bF yF) := by
  induction syms with
  | nil => intro st; simp [App.refreshLoop]
  | cons sym rest ih =>
      intro st
      simp only [App.refreshLoop, List.map_cons]
      rw [ih, app_refreshStep_rows]
      simp

theorem sl_refreshLoop_rows (bF yF : String → Option ℚ) (syms : List String) :
    ∀ st : RefreshState,
      (SL.refreshLoop bF yF st syms).rows = st.rows ++ syms.map (SL.mkRow bF yF) := by
  induction syms with
  | nil => intro st; simp [SL.refreshLoop]
  | cons sym rest ih =>
      intro st
      simp only [SL.refreshLoop, List.map_cons]
      rw [ih, sl_refreshStep_rows]
      simp

theorem app_refreshLoop_agg (bF yF : String → Option ℚ) (syms : List String) :
    ∀ st : RefreshState,
      projAgg (App.refreshLoop bF yF st syms) = aggLoop bF yF (projAgg st) syms := by
  induction syms with
  | nil => intro st; rfl
  | cons sym rest ih =>
      intro st
      simp only [App.refreshLoop, aggLoop]
      rw [ih, app_refreshStep_agg]

theorem sl_refreshLoop_agg (bF yF : String → Option ℚ) (syms : List String) :
    ∀ st : RefreshState,
      projAgg (SL.refreshLoop bF yF st syms) = aggLoop bF yF (projAgg st) syms := by
  induction syms with
  | nil => intro st; rfl
  | cons sym rest ih =>
      intro st
      simp only [SL.refreshLoop, aggLoop]
      rw [ih, sl_refreshStep_agg]

theorem aggStep_of_none (bF yF : String → Option ℚ) (a : Agg) (sym : String)
    (h : resolvedDiff bF yF sym = none) :
    aggStep bF yF a sym = { a with total := a.total + 1, errors := a.errors + 1 } := by
  unfold aggStep
  unfold resolvedDiff at h
  rcases hb : bF sym with _ | br <;> rcases hy : yF sym with _ | yr <;>
    simp only [hb, hy] at h ⊢ <;> first | rfl | exact absurd h (by simp)

theorem aggStep_of_some (bF yF : String → Option ℚ) (a : Agg) (sym : String)
    (d : ℚ) (h : resolvedDiff bF yF sym = some d) :
    aggStep bF yF a sym =
      if a.maxDiff < d then
        { a with total := a.total + 1, maxDiff := d, maxSym := sym }
      else { a with total := a.total + 1 } := by
  unfold aggStep
  unfold resolvedDiff at h
  rcases hb : bF sym with _ | br <;> rcases hy : yF sym with _ | yr <;>
    simp only [hb, hy] at h ⊢
  · exact absurd h (by simp)
  · exact absurd h (by simp)
  · exact absurd h (by simp)
  · obtain rfl : |br - yr| = d := by simpa using h
    rfl

theorem aggStep_total (bF yF : String → Option ℚ) (a : Agg) (sym : String) :
    (aggStep bF yF a sym).total = a.total + 1 := by
  rcases h : resolvedDiff bF yF sym with _ | d
  · rw [aggStep_of_none bF yF a sym h]
  · rw [aggStep_of_some bF yF a sym d h]; split <;> rfl

theorem aggStep_errors (bF yF : String → Option ℚ) (a : Agg) (sym : String) :
    (aggStep bF yF a sym).errors =
      a.errors + (if (resolvedDiff bF yF sym).isNone then 1 else 0) := by
  rcases h : resolvedDiff bF yF sym with _ | d
  · rw [aggStep_of_none bF yF a sym h]; rfl
  · rw [aggStep_of_some bF yF a sym d h]; split <;> rfl

theorem aggStep_maxDiff_le (bF yF : String → Option ℚ) (a : Agg) (sym : String) :
    a.maxDiff ≤ (aggStep bF yF a sym).maxDiff := by
  rcases h : resolvedDiff bF yF sym with _ | d
  · rw [aggStep_of_none bF yF a sym h]
  · rw [aggStep_of_some bF yF a sym d h]
    split
    · exact le_of_lt (by assumption)
    · exact le_refl _

theorem aggLoop_total (bF yF : String → Option ℚ) (syms : List String) :
    ∀ a : Agg, (aggLoop bF yF a syms).total = a.total + syms.length := by
  induction syms with
  | nil => intro a; rfl
  | cons sym rest ih =>
      intro a
      simp only [aggLoop, List.length_cons]
      rw [ih, aggStep_total]
      omega

theorem aggLoop_errors (bF yF : String → Option ℚ) (syms : List String) :
    ∀ a : Agg,
      (aggLoop bF yF a syms).errors =
        a.errors + syms.countP (fun s => (resolvedDiff bF yF s).isNone) := by
  induction syms with
  | nil => intro a; simp [aggLoop]
  | cons sym rest ih =>
      intro a
      simp only [aggLoop]
      rw [ih, aggStep_errors, List.countP_cons]
      rcases h : resolvedDiff bF yF sym with _ | d <;> simp [h] <;> omega

theorem aggLoop_maxDiff_le (bF yF : String → Option ℚ) (syms : List String) :
    ∀ a : Agg, a.maxDiff ≤ (aggLoop bF yF a syms).maxDiff := by
  induction syms with
  | nil => intro a; exact le_refl _
  | cons sym rest ih =>
      intro a
      simp only [aggLoop]
      exact le_trans (aggStep_maxDiff_le bF yF a sym) (ih _)

theorem aggLoop_maxDiff_ub (bF yF : String → Option ℚ) (syms : List String) :
    ∀ a : Agg, ∀ s ∈ syms, ∀ d : ℚ,
      resolvedDiff bF yF s = some d → d ≤ (aggLoop bF yF a syms).maxDiff := by
  induction syms with
  | nil => intro a s hs; exact absurd hs (List.not_mem_nil s)
  | cons sym rest ih =>
      intro a s hs d hd
      simp only [aggLoop]
      rcases List.mem_cons.mp hs with rfl | hmem
      · refine le_trans ?_ (aggLoop_maxDiff_le bF yF rest _)
        rw [aggStep_of_some bF yF a s d hd]
        split
        · exact le_refl d
        · exact le_of_not_lt (by assumption)
      · exact ih _ s hmem d hd

theorem aggLoop_max_spec (bF yF : String → Option ℚ) (syms : List String) :
    ∀ a : Agg,
      ((aggLoop bF yF a syms).maxDiff = a.maxDiff ∧
        (aggLoop bF yF a syms).maxSym = a.maxSym ∧
        ∀ s ∈ syms, ∀ d : ℚ, resolvedDiff bF yF s = some d → d ≤ a.maxDiff) ∨
      (a.maxDiff < (aggLoop bF yF a syms).maxDiff ∧
        (∃ s ∈ syms, resolvedDiff bF yF s = some (aggLoop bF yF a syms).maxDiff) ∧
        syms.find?
            (fun s => decide (resolvedDiff bF yF s = some (aggLoop bF yF a syms).maxDiff)) =
          some (aggLoop bF yF a syms).maxSym) := by
  induction syms with
  | nil =>
      intro a
      exact Or.inl ⟨rfl, rfl, fun s hs => absurd hs (List.not_mem_nil s)⟩
  | cons sym rest ih =>
      intro a
      have hloop :
          aggLoop bF yF a (sym :: rest) = aggLoop bF yF (aggStep bF yF a sym) rest := rfl
      rcases hd : resolvedDiff bF yF sym with _ | d
      · have hstep := aggStep_of_none bF yF a sym hd
        have hmd : (aggStep bF yF a sym).maxDiff = a.maxDiff := by rw [hstep]
        have hms : (aggStep bF yF a sym).maxSym = a.maxSym := by rw [hstep]
        rcases ih (aggStep bF yF a sym) with ⟨h1, h2, h3⟩ | ⟨h1, h2, h3⟩
        · refine Or.inl ⟨?_, ?_, ?_⟩
          · rw [hloop, h1, hmd]
          · rw [hloop, h2, hms]
          · intro s hs e he
            rcases List.mem_cons.mp hs with rfl | hmem
            · rw [hd] at he; exact absurd he (by simp)
            · have hb := h3 s hmem e he
              rwa [hmd] at hb
        · refine Or.inr ⟨?_, ?_, ?_⟩
          · rw [hloop]; rw [hmd] at h1; exact h1
          · rw [hloop]
            obtain ⟨s, hmem, hdiff⟩ := h2
            exact ⟨s, List.mem_cons_of_mem sym hmem, hdiff⟩
          · rw [hloop]
            rw [List.find?_cons_of_neg]
            · exact h3
            · simp [hd]
      · by_cases hlt : a.maxDiff < d
        · have hstep := aggStep_of_some bF yF a sym d hd
          rw [if_pos hlt] at hstep
          have hmd : (aggStep bF yF a sym).maxDiff = d := by rw [hstep]
          have hms : (aggStep bF yF a sym).maxSym = sym := by rw [hstep]
          rcases ih (aggStep bF yF a sym) with ⟨h1, h2, h3⟩ | ⟨h1, h2, h3⟩
          · refine Or.inr ⟨?_, ?_, ?_⟩
            · rw [hloop, h1, hmd]; exact hlt
            · rw [hloop]
              exact ⟨sym, List.mem_cons_self sym rest, by rw [h1, hmd, hd]⟩
            · rw [hloop]
              rw [List.find?_cons_of_pos]
              · rw [h2, hms]
              · simp [hd, h1, hmd]
          · refine Or.inr ⟨?_, ?_, ?_⟩
            · rw [hloop]
              rw [hmd] at h1
              exact lt_trans hlt h1
            · rw [hloop]
              obtain ⟨s, hmem, hdiff⟩ := h2
              exact ⟨s, List.mem_cons_of_mem sym hmem, hdiff⟩
            · rw [hloop]
              rw [List.find?_cons_of_neg]
              · exact h3
              · rw [hmd] at h1
                simp only [hd, decide_eq_true_eq, Option.some.injEq]
                exact fun h => absurd h (ne_of_lt h1)
        · have hstep := aggStep_of_some bF yF a sym d hd
          rw [if_neg hlt] at hstep
          have hmd : (aggStep bF yF a sym).maxDiff = a.maxDiff := by rw [hstep]
          have hms : (aggStep bF yF a sym).maxSym = a.maxSym := by rw [hstep]
          rcases ih (aggStep bF yF a sym) with ⟨h1, h2, h3⟩ | ⟨h1, h2, h3⟩
          · refine Or.inl ⟨?_, ?_, ?_⟩
            · rw [hloop, h1, hmd]
            · rw [hloop, h2, hms]
            · intro s hs e he
              rcases List.mem_cons.mp hs with rfl | hmem
              · rw [hd] at he
                obtain rfl : d = e := by simpa using he
                exact le_of_not_lt hlt
              · have hb := h3 s hmem e he
                rwa [hmd] at hb
          · refine Or.inr ⟨?_, ?_, ?_⟩
            · rw [hloop]; rw [hmd] at h1; exact h1
            · rw [hloop]
              obtain ⟨s, hmem, hdiff⟩ := h2
              exact ⟨s, List.mem_cons_of_mem sym hmem, hdiff⟩
            · rw [hloop]
              rw [List.find?_cons_of_neg]
              · exact h3
              · rw [hmd] at h1
                simp only [hd, decide_eq_true_eq, Option.some.injEq]
                intro h
                exact absurd h (ne_of_lt (lt_of_le_of_lt (le_of_not_lt hlt) h1))

theorem countP_isNone_add_isSome (f : String → Option ℚ) (l : List String) :
    l.countP (fun s => (f s).isNone) + l.countP (fun s => (f s).isSome) = l.length := by
  induction l with
  | nil => rfl
  | cons x xs ih =>
      simp only [List.countP_cons, List.length_cons]
      rcases h : f x with _ | v <;> simp [h] <;> omega

theorem app_mkRow_symbol (bF yF : String → Option ℚ) (s : String) :
    (App.mkRow bF yF s).symbol = s := by
  unfold App.mkRow
  rcases hb : bF s with _ | br <;> rcases hy : yF s with _ | yr <;>
    simp only [hb, hy]

theorem sl_mkRow_symbol (bF yF : String → Option ℚ) (s : String) :
    (SL.mkRow bF yF s).symbol = s := by
  unfold SL.mkRow
  rcases hb : bF s with _ | br <;> rcases hy : yF s with _ | yr <;>
    simp only [hb, hy]

theorem app_mkRow_absDiffRaw (bF yF : String → Option ℚ) (s : String) :
    (App.mkRow bF yF s).absDiffRaw = resolvedDiff bF yF s := by
  unfold App.mkRow resolvedDiff
  rcases hb : bF s with _ | br <;> rcases hy : yF s with _ | yr <;>
    simp only [hb, hy]

theorem sl_mkRow_absDiffRaw (bF yF : String → Option ℚ) (s : String) :
    (SL.mkRow bF yF s).absDiffRaw = resolvedDiff bF yF s := by
  unfold SL.mkRow resolvedDiff
  rcases hb : bF s with _ | br <;> rcases hy : yF s with _ | yr <;>
    simp only [hb, hy]

theorem app_mkRow_error (bF yF : String → Option ℚ) (s : String)
    (h : bF s = none ∨ yF s = none) :
    App.mkRow bF yF s =
      { symbol := s, binance := "ERR", bybit := "ERR", absDiff := "ERR",
        binanceRaw := none, bybitRaw := none, absDiffRaw := none } := by
  unfold App.mkRow
  rcases hb : bF s with _ | br <;> rcases hy : yF s with _ | yr
  · simp only [hb, hy]
  · simp only [hb, hy]
  · simp only [hb, hy]
  · rw [hb, hy] at h
    rcases h with h | h <;> exact absurd h (by simp)

theorem sl_mkRow_error (bF yF : String → Option ℚ) (s : String)
    (h : bF s = none ∨ yF s = none) :
    (SL.mkRow bF yF s).binanceRaw = bF s ∧ (SL.mkRow bF yF s).bybitRaw = yF s ∧
      (SL.mkRow bF yF s).absDiffRaw = none := by
  unfold SL.mkRow
  rcases hb : bF s with _ | br <;> rcases hy : yF s with _ | yr
  · simp [hb, hy]
  · simp [hb, hy]
  · simp [hb, hy]
  · rw [hb, hy] at h
    rcases h with h | h <;> exact absurd h (by simp)

theorem app_mkRow_resolved (bF yF : String → Option ℚ) (s : String) (a b : ℚ)
    (ha : bF s = some a) (hb : yF s = some b) :
    (App.mkRow bF yF s).binanceRaw = some a ∧ (App.mkRow bF yF s).bybitRaw = some b ∧
      (App.mkRow bF yF s).absDiffRaw = some |a - b| := by
  unfold App.mkRow
  simp [ha, hb]

theorem sl_mkRow_resolved (bF yF : String → Option ℚ) (s : String) (a b : ℚ)
    (ha : bF s = some a) (hb : yF s = some b) :
    (SL.mkRow bF yF s).binanceRaw = some a ∧ (SL.mkRow bF yF s).bybitRaw = some b ∧
      (SL.mkRow bF yF s).absDiffRaw = some |a - b| := by
  unfold SL.mkRow
  simp [ha, hb]

theorem app_mkRow_diff (bF yF : String → Option ℚ) (s : String) (a b : ℚ)
    (ha : (App.mkRow bF yF s).binanceRaw = some a)
    (hb : (App.mkRow bF yF s).bybitRaw = some b) :
    (App.mkRow bF yF s).absDiffRaw = some |a - b| := by
  rcases hfb : bF s with _ | br <;> rcases hfy : yF s with _ | yr
  · rw [app_mkRow_error bF yF s (Or.inl hfb)] at ha; exact absurd ha (by simp)
  · rw [app_mkRow_error bF yF s (Or.inl hfb)] at ha; exact absurd ha (by simp)
  · rw [app_mkRow_error bF yF s (Or.inr hfy)] at ha; exact absurd ha (by simp)
  · obtain ⟨h1, h2, h3⟩ := app_mkRow_resolved bF yF s br yr hfb hfy
    rw [h1] at ha
    rw [h2] at hb
    obtain rfl : br = a := by simpa using ha
    obtain rfl : yr = b := by simpa using hb
    exact h3

theorem sl_mkRow_diff (bF yF : String → Option ℚ) (s : String) (a b : ℚ)
    (ha : (SL.mkRow bF yF s).binanceRaw = some a)
    (hb : (SL.mkRow bF yF s).bybitRaw = some b) :
    (SL.mkRow bF yF s).absDiffRaw = some |a - b| := by
  rcases hfb : bF s with _ | br <;> rcases hfy : yF s with _ | yr
  · obtain ⟨h1, _, _⟩ := sl_mkRow_error bF yF s (Or.inl hfb)
    rw [h1, hfb] at ha; exact absurd ha (by simp)
  · obtain ⟨h1, _, _⟩ := sl_mkRow_error bF yF s (Or.inl hfb)
    rw [h1, hfb] at ha; exact absurd ha (by simp)
  · obtain ⟨_, h2, _⟩ := sl_mkRow_error bF yF s (Or.inr hfy)
    rw [h2, hfy] at hb; exact absurd hb (by simp)
  · obtain ⟨h1, h2, h3⟩ := sl_mkRow_resolved bF yF s br yr hfb hfy
    rw [h1] at ha
    rw [h2] at hb
    obtain rfl : br = a := by simpa using ha
    obtain rfl : yr = b := by simpa using hb
    exact h3

theorem app_refresh_agg (bF yF : String → Option ℚ) (syms : List String) :
    projAgg (App.refresh bF yF syms) = aggLoop bF yF (projAgg initState) syms :=
  app_refreshLoop_agg bF yF syms initState

theorem sl_refresh_agg (bF yF : String → Option ℚ) (syms : List String) :
    projAgg (SL.refresh bF yF syms) = aggLoop bF yF (projAgg initState) syms :=
  sl_refreshLoop_agg bF yF syms initState

theorem app_refresh_rows (bF yF : String → Option ℚ) (syms : List String) :
    (App.refresh bF yF syms).rows = syms.map (App.mkRow bF yF) := by
  have h := app_refreshLoop_rows bF yF syms initState
  simpa [initState] using h

theorem sl_refresh_rows (bF yF : String → Option ℚ) (syms : List String) :
    (SL.refresh bF yF syms).rows = syms.map (SL.mkRow bF yF) := by
  have h := sl_refreshLoop_rows bF yF syms initState
  simpa [initState] using h

theorem app_refresh_totalSymbols (bF yF : String → Option ℚ) (syms : List String) :
    (App.refresh bF yF syms).totalSymbols = syms.length := by
  have h := congrArg Agg.total (app_refresh_agg bF yF syms)
  rw [aggLoop_total] at h
  simpa [projAgg, initState] using h

theorem sl_refresh_totalSymbols (bF yF : String → Option ℚ) (syms : List String) :
    (SL.refresh bF yF syms).totalSymbols = syms.length := by
  have h := congrArg Agg.total (sl_refresh_agg bF yF syms)
  rw [aggLoop_total] at h
  simpa [projAgg, initState] using h

theorem app_refresh_errorCount (bF yF : String → Option ℚ) (syms : List String) :
    (App.refresh bF yF syms).errorCount =
      syms.countP (fun s => (resolvedDiff bF yF s).isNone) := by
  have h := congrArg Agg.errors (app_refresh_agg bF yF syms)
  rw [aggLoop_errors] at h
  simpa [projAgg, initState] using h

theorem sl_refresh_errorCount (bF yF : String → Option ℚ) (syms : List String) :
    (SL.refresh bF yF syms).errorCount =
      syms.countP (fun s => (resolvedDiff bF yF s).isNone) := by
  have h := congrArg Agg.errors (sl_refresh_agg bF yF syms)
  rw [aggLoop_errors] at h
  simpa [projAgg, initState] using h

theorem roundHalfEven_natCast (n : ℕ) : roundHalfEven (n : ℚ) = n := by
  unfold roundHalfEven
  rw [Int.floor_natCast]
  simp

theorem fixedFmt_eval (nd : ℕ) (x : ℚ) (m : ℕ) (hx : ¬x < 0)
    (hm : |x| * 10 ^ nd = (m : ℚ)) :
    fixedFmt nd x =
      Nat.repr (m / 10 ^ nd) ++ "." ++ padZeros nd (Nat.repr (m % 10 ^ nd)) := by
  unfold fixedFmt
  rw [hm, roundHalfEven_natCast, if_neg hx]
  simp

theorem resolvedDiff_isSome_iff (bF yF : String → Option ℚ) (s : String) :
    (resolvedDiff bF yF s).isSome = true ↔
      (bF s).isSome = true ∧ (yF s).isSome = true := by
  unfold resolvedDiff
  rcases hb : bF s with _ | br <;> rcases hy : yF s with _ | yr <;> simp

/-! ## Claim theorems -/

/-- C5: format_rate of None is the literal ERR; for a present rate, with p
the rate times 100, the output is p with four decimals and a percent sign
when the magnitude of p is at least 0.001, five decimals when it lies in
[0.0001, 0.001), and scientific form with two decimals below 0.0001; in
particular rate 0.0001 follows the four-decimal rule and renders as
0.0100 percent. -/
theorem c5_format_rate_rule :
    format_funding_rate none = "ERR" ∧
    (∀ r : ℚ,
      ((1:ℚ)/1000 ≤ |r * 100| →
        format_funding_rate (some r) = fixedFmt 4 (r * 100) ++ "%") ∧
      ((1:ℚ)/10000 ≤ |r * 100| → |r * 100| < 1/1000 →
        format_funding_rate (some r) = fixedFmt 5 (r * 100) ++ "%") ∧
      (|r * 100| < 1/10000 →
        format_funding_rate (some r) = sciFmt2 (r * 100) ++ "%")) ∧
    format_funding_rate (some (1/10000)) = "0.0100%" := by
  refine ⟨rfl, ?_, ?_⟩
  · intro r
    refine ⟨?_, ?_, ?_⟩
    · intro h1
      simp only [format_funding_rate]
      rw [if_pos h1]
    · intro h1 h2
      simp only [format_funding_rate]
      rw [if_neg (not_le.mpr h2), if_pos h1]
    · intro h1
      simp only [format_funding_rate]
      rw [if_neg (not_le.mpr (lt_trans h1 (by norm_num))), if_neg (not_le.mpr h1)]
  · have h1 : ((1:ℚ)/1000 : ℚ) ≤ |(1/10000 : ℚ) * 100| := by
      rw [abs_of_nonneg (by norm_num)]
      norm_num
    simp only [format_funding_rate]
    rw [if_pos h1]
    rw [fixedFmt_eval 4 ((1:ℚ)/10000 * 100) 100 (by norm_num)
      (by rw [abs_of_nonneg (by norm_num)]; norm_num)]
    decide

/-- Witness for C5: the four-decimal branch applies at rate 0.0001 and the
scientific branch applies at rate 0, with the hypotheses discharged at the
concrete inputs. -/
theorem c5_format_rate_rule_witness :
    format_funding_rate (some (1/10000)) = fixedFmt 4 ((1:ℚ)/10000 * 100) ++ "%" ∧
    format_funding_rate (some 0) = sciFmt2 ((0:ℚ) * 100) ++ "%" :=
  ⟨(c5_format_rate_rule.2.1 (1/10000)).1
      (by rw [abs_of_nonneg (by norm_num)]; norm_num),
   (c5_format_rate_rule.2.1 0).2.2
      (by rw [show ((0:ℚ) * 100) = 0 by ring, abs_zero]; norm_num)⟩

/-- C8: the classification behind the color function is total and
deterministic on optional rationals, sends None to error and otherwise
follows the sign exactly, and get_rate_color renders each category as its
CSS string (error and negative share red). -/
theorem c8_classify_color_total (r : Option ℚ) :
    (r = none → classify_color r = RateColor.error) ∧
    (∀ q : ℚ, r = some q →
      ((classify_color r = RateColor.positive ↔ 0 < q) ∧
       (classify_color r = RateColor.negative ↔ q < 0) ∧
       (classify_color r = RateColor.neutral ↔ q = 0))) ∧
    get_rate_color r = colorOf (classify_color r) ∧
    classify_color r = classify_color r := by
  refine ⟨?_, ?_, ?_, rfl⟩
  · rintro rfl
    rfl
  · rintro q rfl
    simp only [classify_color]
    rcases lt_trichotomy 0 q with h | h | h
    · rw [if_pos h]
      exact ⟨⟨fun _ => h, fun _ => rfl⟩,
        ⟨fun hc => absurd hc (by decide), fun hq => absurd hq (asymm h)⟩,
        ⟨fun hc => absurd hc (by decide), fun hq => absurd hq (ne_of_gt h)⟩⟩
    · obtain rfl : q = 0 := h.symm
      rw [if_neg (lt_irrefl 0), if_neg (lt_irrefl 0)]
      exact ⟨⟨fun hc => absurd hc (by decide), fun hq => absurd hq (lt_irrefl 0)⟩,
        ⟨fun hc => absurd hc (by decide), fun hq => absurd hq (lt_irrefl 0)⟩,
        ⟨fun _ => rfl, fun _ => rfl⟩⟩
    · rw [if_neg (asymm h), if_pos h]
      exact ⟨⟨fun hc => absurd hc (by decide), fun hq => absurd hq (asymm h)⟩,
        ⟨fun _ => h, fun _ => rfl⟩,
        ⟨fun hc => absurd hc (by decide), fun hq => absurd hq (ne_of_lt h)⟩⟩
  · rcases r with _ | q
    · rfl
    · simp only [get_rate_color, classify_color]
      split_ifs <;> rfl

/-- Witness for C8: the sign rules applied at concrete inputs. -/
theorem c8_classify_color_total_witness :
    classify_color (some 1) = RateColor.positive ∧
    classify_color none = RateColor.error :=
  ⟨((c8_classify_color_total (some 1)).2.1 1 rfl).1.mpr one_pos,
   (c8_classify_color_total none).1 rfl⟩

/-- C2 counterexample: in src/app.py, a transport error on the primary
Binance request returns unavailable immediately even though the fallback
endpoint would have supplied a rate; the streamlit variant in the same
situation does consult its chain and returns the rate. -/
theorem c2_counterexample :
    App.get_binance_funding Attempt.transportError (Attempt.ok (some (1/1000))) = none ∧
    attemptValue (Attempt.ok (some (1/1000))) = some (1/1000) ∧
    SL.get_binance_funding Attempt.transportError (Attempt.ok (some (1/1000)))
      (Attempt.ok none) = some (1/1000) :=
  ⟨rfl, rfl, rfl⟩

/-- C2 amended: in src/streamlit_app.py every failure mode of an attempt
falls through to the next endpoint of the chain and unavailable is
returned only once every attempt fails to produce a rate; in src/app.py
the fallback is consulted exactly when the primary attempt completes
without a usable field, while a raising failure (transport error, non-2xx
status, malformed payload) on the primary returns unavailable at once. -/
theorem c2_fallback_chain :
    (∀ a1 a2 a3 : Attempt,
      SL.get_binance_funding a1 a2 a3 = none ↔
        attemptValue a1 = none ∧ attemptValue a2 = none ∧ attemptValue a3 = none) ∧
    (∀ a1 a2 : Attempt,
      SL.get_bybit_funding a1 a2 = none ↔
        attemptValue a1 = none ∧ attemptValue a2 = none) ∧
    (∀ h : Attempt, App.get_binance_funding (Attempt.ok none) h = attemptValue h) ∧
    (∀ p h : Attempt, attemptRaises p = true → App.get_binance_funding p h = none) ∧
    (∀ h : Attempt, App.get_bybit_funding (Attempt.ok none) h = attemptValue h) ∧
    (∀ p h : Attempt, attemptRaises p = true → App.get_bybit_funding p h = none) := by
  refine ⟨?_, ?_, ?_, ?_, ?_, ?_⟩
  · intro a1 a2 a3
    simp only [SL.get_binance_funding]
    rcases h1 : attemptValue a1 with _ | r1
    · rcases h2 : attemptValue a2 with _ | r2
      · simp
      · simp
    · simp
  · intro a1 a2
    simp only [SL.get_bybit_funding]
    rcases h1 : attemptValue a1 with _ | r1
    · simp
    · simp
  · intro h
    rcases h with _ | c | _ | v <;> rfl
  · intro p h hp
    rcases p with _ | c | _ | v
    · rfl
    · rfl
    · rfl
    · exact absurd hp (by simp [attemptRaises])
  · intro h
    rcases h with _ | c | _ | v <;> rfl
  · intro p h hp
    rcases p with _ | c | _ | v
    · rfl
    · rfl
    · rfl
    · exact absurd hp (by simp [attemptRaises])

/-- Witness for C2 amended: concrete instances of the chain behavior with
the hypotheses discharged. -/
theorem c2_fallback_chain_witness :
    App.get_binance_funding (Attempt.httpError 451) (Attempt.ok (some (1/1000))) = none ∧
    App.get_bybit_funding Attempt.malformed (Attempt.ok (some (1/1000))) = none ∧
    (SL.get_binance_funding (Attempt.httpError 451) Attempt.transportError
        (Attempt.ok none) = none ↔
      attemptValue (Attempt.httpError 451) = none ∧
        attemptValue Attempt.transportError = none ∧
        attemptValue (Attempt.ok none) = none) :=
  ⟨c2_fallback_chain.2.2.2.1 (Attempt.httpError 451) (Attempt.ok (some (1/1000))) rfl,
   c2_fallback_chain.2.2.2.2.2 Attempt.malformed (Attempt.ok (some (1/1000))) rfl,
   c2_fallback_chain.1 (Attempt.httpError 451) Attempt.transportError (Attempt.ok none)⟩

/-- C7: every raising or empty outcome makes the fetchers return
unavailable instead of propagating, and a reconciliation pass always
produces one row per symbol, each determined by that symbol alone, with
the error counter counting exactly the symbols with a missing side. -/
theorem c7_failure_isolation :
    (∀ p h : Attempt, attemptValue p = none → attemptValue h = none →
      App.get_binance_funding p h = none ∧ App.get_bybit_funding p h = none) ∧
    (∀ a1 a2 a3 : Attempt, attemptValue a1 = none → attemptValue a2 = none →
      attemptValue a3 = none → SL.get_binance_funding a1 a2 a3 = none) ∧
    (∀ a1 a2 : Attempt, attemptValue a1 = none → attemptValue a2 = none →
      SL.get_bybit_funding a1 a2 = none) ∧
    (∀ (bF yF : String → Option ℚ) (syms : List String),
      (App.refresh bF yF syms).rows = syms.map (App.mkRow bF yF) ∧
      (SL.refresh bF yF syms).rows = syms.map (SL.mkRow bF yF) ∧
      (App.refresh bF yF syms).rows.length = syms.length ∧
      (SL.refresh bF yF syms).rows.length = syms.length ∧
      (App.refresh bF yF syms).errorCount =
        syms.countP (fun s => (resolvedDiff bF yF s).isNone) ∧
      (SL.refresh bF yF syms).errorCount =
        syms.countP (fun s => (resolvedDiff bF yF s).isNone)) := by
  refine ⟨?_, ?_, ?_, ?_⟩
  · intro p h hp hh
    constructor
    · rcases p with _ | c | _ | v
      · rfl
      · rfl
      · rfl
      · obtain rfl : v = none := by simpa [attemptValue] using hp
        rcases h with _ | c | _ | w
        · rfl
        · rfl
        · rfl
        · obtain rfl : w = none := by simpa [attemptValue] using hh
          rfl
    · rcases p with _ | c | _ | v
      · rfl
      · rfl
      · rfl
      · obtain rfl : v = none := by simpa [attemptValue] using hp
        rcases h with _ | c | _ | w
        · rfl
        · rfl
        · rfl
        · obtain rfl : w = none := by simpa [attemptValue] using hh
          rfl
  · intro a1 a2 a3 h1 h2 h3
    simp only [SL.get_binance_funding, h1, h2, h3]
  · intro a1 a2 h1 h2
    simp only [SL.get_bybit_funding, h1, h2]
  · intro bF yF syms
    refine ⟨app_refresh_rows bF yF syms, sl_refresh_rows bF yF syms, ?_, ?_,
      app_refresh_errorCount bF yF syms, sl_refresh_errorCount bF yF syms⟩
    · rw [app_refresh_rows, List.length_map]
    · rw [sl_refresh_rows, List.length_map]

/-- Witness for C7: concrete all-fail environments and a concrete pass. -/
theorem c7_failure_isolation_witness :
    App.get_binance_funding Attempt.malformed Attempt.transportError = none ∧
    SL.get_bybit_funding (Attempt.httpError 403) (Attempt.ok none) = none ∧
    (App.refresh demoBinance demoBybit ["BTCUSDT", "ETHUSDT"]).rows.length = 2 :=
  ⟨(c7_failure_isolation.1 Attempt.malformed Attempt.transportError rfl rfl).1,
   c7_failure_isolation.2.2.1 (Attempt.httpError 403) (Attempt.ok none) rfl rfl,
   (c7_failure_isolation.2.2.2 demoBinance demoBybit ["BTCUSDT", "ETHUSDT"]).2.2.1⟩

/-- C6: in both variants the refresh loop emits exactly one sample per
input symbol in input order, runs to completion, and splits the total
count into erroneous and successful samples. -/
theorem c6_ordering_completeness (bF yF : String → Option ℚ) (syms : List String) :
    ((App.refresh bF yF syms).rows.map Row.symbol = syms ∧
     (App.refresh bF yF syms).totalSymbols = syms.length ∧
     (App.refresh bF yF syms).errorCount +
       (App.refresh bF yF syms).rows.countP (fun r => r.absDiffRaw.isSome) =
         syms.length) ∧
    ((SL.refresh bF yF syms).rows.map Row.symbol = syms ∧
     (SL.refresh bF yF syms).totalSymbols = syms.length ∧
     (SL.refresh bF yF syms).errorCount +
       (SL.refresh bF yF syms).rows.countP (fun r => r.absDiffRaw.isSome) =
         syms.length) := by
  constructor
  · refine ⟨?_, app_refresh_totalSymbols bF yF syms, ?_⟩
    · rw [app_refresh_rows, List.map_map]
      have h : ∀ s ∈ syms, (Row.symbol ∘ App.mkRow bF yF) s = id s := by
        intro s _
        exact app_mkRow_symbol bF yF s
      rw [List.map_congr_left h, List.map_id]
    · rw [app_refresh_rows, List.countP_map, app_refresh_errorCount]
      have hc : syms.countP ((fun r => r.absDiffRaw.isSome) ∘ App.mkRow bF yF) =
          syms.countP (fun s => (resolvedDiff bF yF s).isSome) :=
        List.countP_congr (fun s _ => by
          simp only [Function.comp_apply, app_mkRow_absDiffRaw])
      rw [hc]
      exact countP_isNone_add_isSome (resolvedDiff bF yF) syms
  · refine ⟨?_, sl_refresh_totalSymbols bF yF syms, ?_⟩
    · rw [sl_refresh_rows, List.map_map]
      have h : ∀ s ∈ syms, (Row.symbol ∘ SL.mkRow bF yF) s = id s := by
        intro s _
        exact sl_mkRow_symbol bF yF s
      rw [List.map_congr_left h, List.map_id]
    · rw [sl_refresh_rows, List.countP_map, sl_refresh_errorCount]
      have hc : syms.countP ((fun r => r.absDiffRaw.isSome) ∘ SL.mkRow bF yF) =
          syms.countP (fun s => (resolvedDiff bF yF s).isSome) :=
        List.countP_congr (fun s _ => by
          simp only [Function.comp_apply, sl_mkRow_absDiffRaw])
      rw [hc]
      exact countP_isNone_add_isSome (resolvedDiff bF yF) syms

/-- C10: on identical fetch outcomes the two variants agree on every
aggregate of the pass: total symbols, error count, maximum difference and
its owning symbol. -/
theorem c10_aggregate_agreement (bF yF : String → Option ℚ) (syms : List String) :
    (App.refresh bF yF syms).totalSymbols = (SL.refresh bF yF syms).totalSymbols ∧
    (App.refresh bF yF syms).errorCount = (SL.refresh bF yF syms).errorCount ∧
    (App.refresh bF yF syms).maxDiff = (SL.refresh bF yF syms).maxDiff ∧
    (App.refresh bF yF syms).maxDiffSymbol = (SL.refresh bF yF syms).maxDiffSymbol := by
  have h : projAgg (App.refresh bF yF syms) = projAgg (SL.refresh bF yF syms) :=
    (app_refresh_agg bF yF syms).trans (sl_refresh_agg bF yF syms).symm
  exact ⟨congrArg Agg.total h, congrArg Agg.errors h,
    congrArg Agg.maxDiff h, congrArg Agg.maxSym h⟩

theorem demoBinance_btc : demoBinance "BTCUSDT" = some (1/10000) := rfl

theorem demoBinance_eth : demoBinance "ETHUSDT" = none := rfl

theorem demoBybit_btc : demoBybit "BTCUSDT" = some (15/100000) := rfl

theorem demoBybit_eth : demoBybit "ETHUSDT" = none := rfl

theorem abs_btc_demo_diff : |(1:ℚ)/10000 - 15/100000| = 5/100000 := by
  rw [show (1:ℚ)/10000 - 15/100000 = -(5/100000) by norm_num, abs_neg,
    abs_of_nonneg (by norm_num : (0:ℚ) ≤ 5/100000)]

theorem resolvedDiff_demo_btc :
    resolvedDiff demoBinance demoBybit "BTCUSDT" = some (5/100000) := by
  unfold resolvedDiff
  rw [demoBinance_btc, demoBybit_btc]
  show some |(1:ℚ)/10000 - 15/100000| = some (5/100000)
  rw [abs_btc_demo_diff]

theorem resolvedDiff_demo_eth :
    resolvedDiff demoBinance demoBybit "ETHUSDT" = none := by
  unfold resolvedDiff
  rw [demoBinance_eth, demoBybit_eth]

theorem aggLoop_demo :
    aggLoop demoBinance demoBybit (projAgg initState) ["BTCUSDT", "ETHUSDT"] =
      { total := 2, errors := 1, maxDiff := 5/100000, maxSym := "BTCUSDT" } := by
  have s1 : aggStep demoBinance demoBybit (projAgg initState) "BTCUSDT" =
      { total := 1, errors := 0, maxDiff := 5/100000, maxSym := "BTCUSDT" } := by
    rw [aggStep_of_some demoBinance demoBybit (projAgg initState) "BTCUSDT"
      (5/100000) resolvedDiff_demo_btc]
    rw [if_pos (show (projAgg initState).maxDiff < 5/100000 by
      simp only [projAgg, initState]; norm_num)]
    rfl
  have s2 : aggStep demoBinance demoBybit
      { total := 1, errors := 0, maxDiff := 5/100000, maxSym := "BTCUSDT" } "ETHUSDT" =
      { total := 2, errors := 1, maxDiff := 5/100000, maxSym := "BTCUSDT" } := by
    rw [aggStep_of_none demoBinance demoBybit _ "ETHUSDT" resolvedDiff_demo_eth]
  show aggLoop demoBinance demoBybit
    (aggStep demoBinance demoBybit (projAgg initState) "BTCUSDT") ["ETHUSDT"] = _
  rw [s1]
  show aggStep demoBinance demoBybit _ "ETHUSDT" = _
  rw [s2]

/-- C1: on the two-symbol scenario where BTCUSDT resolves to 0.0001 and
0.00015 and ETHUSDT fails on both exchanges, both refresh loops report two
symbols, one error, maximum difference 0.00005 owned by BTCUSDT, and an
ETHUSDT sample whose raw rate fields are both null. -/
theorem c1_end_to_end :
    (App.refresh demoBinance demoBybit ["BTCUSDT", "ETHUSDT"]).totalSymbols = 2 ∧
    (App.refresh demoBinance demoBybit ["BTCUSDT", "ETHUSDT"]).errorCount = 1 ∧
    (App.refresh demoBinance demoBybit ["BTCUSDT", "ETHUSDT"]).maxDiff = 5/100000 ∧
    (App.refresh demoBinance demoBybit ["BTCUSDT", "ETHUSDT"]).maxDiffSymbol =
      "BTCUSDT" ∧
    (App.refresh demoBinance demoBybit ["BTCUSDT", "ETHUSDT"]).rows.map Row.binanceRaw =
      [some (1/10000), none] ∧
    (App.refresh demoBinance demoBybit ["BTCUSDT", "ETHUSDT"]).rows.map Row.bybitRaw =
      [some (15/100000), none] ∧
    (SL.refresh demoBinance demoBybit ["BTCUSDT", "ETHUSDT"]).totalSymbols = 2 ∧
    (SL.refresh demoBinance demoBybit ["BTCUSDT", "ETHUSDT"]).errorCount = 1 ∧
    (SL.refresh demoBinance demoBybit ["BTCUSDT", "ETHUSDT"]).maxDiff = 5/100000 ∧
    (SL.refresh demoBinance demoBybit ["BTCUSDT", "ETHUSDT"]).maxDiffSymbol =
      "BTCUSDT" ∧
    (SL.refresh demoBinance demoBybit ["BTCUSDT", "ETHUSDT"]).rows.map Row.binanceRaw =
      [some (1/10000), none] ∧
    (SL.refresh demoBinance demoBybit ["BTCUSDT", "ETHUSDT"]).rows.map Row.bybitRaw =
      [some (15/100000), none] := by
  have hA := app_refresh_agg demoBinance demoBybit ["BTCUSDT", "ETHUSDT"]
  rw [aggLoop_demo] at hA
  have hS := sl_refresh_agg demoBinance demoBybit ["BTCUSDT", "ETHUSDT"]
  rw [aggLoop_demo] at hS
  refine ⟨congrArg Agg.total hA, congrArg Agg.errors hA, congrArg Agg.maxDiff hA,
    congrArg Agg.maxSym hA, ?_, ?_, congrArg Agg.total hS, congrArg Agg.errors hS,
    congrArg Agg.maxDiff hS, congrArg Agg.maxSym hS, ?_, ?_⟩
  · rw [app_refresh_rows]
    simp only [List.map_cons, List.map_nil]
    rw [(app_mkRow_resolved demoBinance demoBybit "BTCUSDT" (1/10000) (15/100000)
      demoBinance_btc demoBybit_btc).1]
    rw [app_mkRow_error demoBinance demoBybit "ETHUSDT" (Or.inl demoBinance_eth)]
  · rw [app_refresh_rows]
    simp only [List.map_cons, List.map_nil]
    rw [(app_mkRow_resolved demoBinance demoBybit "BTCUSDT" (1/10000) (15/100000)
      demoBinance_btc demoBybit_btc).2.1]
    rw [app_mkRow_error demoBinance demoBybit "ETHUSDT" (Or.inl demoBinance_eth)]
  · rw [sl_refresh_rows]
    simp only [List.map_cons, List.map_nil]
    rw [(sl_mkRow_resolved demoBinance demoBybit "BTCUSDT" (1/10000) (15/100000)
      demoBinance_btc demoBybit_btc).1]
    rw [(sl_mkRow_error demoBinance demoBybit "ETHUSDT" (Or.inl demoBinance_eth)).1,
      demoBinance_eth]
  · rw [sl_refresh_rows]
    simp only [List.map_cons, List.map_nil]
    rw [(sl_mkRow_resolved demoBinance demoBybit "BTCUSDT" (1/10000) (15/100000)
      demoBinance_btc demoBybit_btc).2.1]
    rw [(sl_mkRow_error demoBinance demoBybit "ETHUSDT" (Or.inl demoBinance_eth)).2.1,
      demoBybit_eth]

/-- Fixture: a fetch that always resolves to the rate 0.0001. -/
def constRate (_ : String) : Option ℚ := some (1/10000)

/-- Fixture: a fetch that is always unavailable. -/
def noRate (_ : String) : Option ℚ := none

theorem resolvedDiff_const_none (s : String) :
    resolvedDiff constRate noRate s = none := rfl

theorem resolvedDiff_const_const (s : String) :
    resolvedDiff constRate constRate s = some 0 := by
  unfold resolvedDiff constRate
  simp

/-- C3 counterexample: in the streamlit variant an erroneous sample for a
symbol whose exchange-A fetch resolved keeps that rate in its raw field,
so the sample does not have both rate fields null although the error
counter was incremented for it. -/
theorem c3_counterexample :
    (SL.refresh constRate noRate ["BTCUSDT"]).errorCount = 1 ∧
    (SL.refresh constRate noRate ["BTCUSDT"]).rows.map Row.binanceRaw =
      [some (1/10000)] ∧
    some ((1:ℚ)/10000) ≠ none := by
  refine ⟨?_, ?_, by simp⟩
  · rw [sl_refresh_errorCount]
    simp [List.countP_cons, resolvedDiff_const_none]
  · rw [sl_refresh_rows]
    simp only [List.map_cons, List.map_nil]
    rw [(sl_mkRow_error constRate noRate "BTCUSDT" (Or.inr rfl)).1]
    rfl

/-- C3 amended: in src/app.py an erroneous sample has both rate fields and
the difference null; in src/streamlit_app.py an erroneous sample keeps
each resolved rate, nulls only the missing side, and has a null
difference. In both variants the error counter counts exactly the symbols
with a missing side, and the absolute difference is present iff both
rates are present. -/
theorem c3_error_sample_shape (bF yF : String → Option ℚ) (syms : List String) :
    (∀ s : String, (bF s = none ∨ yF s = none) →
      App.mkRow bF yF s =
        { symbol := s, binance := "ERR", bybit := "ERR", absDiff := "ERR",
          binanceRaw := none, bybitRaw := none, absDiffRaw := none } ∧
      (SL.mkRow bF yF s).binanceRaw = bF s ∧ (SL.mkRow bF yF s).bybitRaw = yF s ∧
      (SL.mkRow bF yF s).absDiffRaw = none) ∧
    (∀ s : String,
      ((App.mkRow bF yF s).absDiffRaw.isSome = true ↔
        (bF s).isSome = true ∧ (yF s).isSome = true) ∧
      ((SL.mkRow bF yF s).absDiffRaw.isSome = true ↔
        (bF s).isSome = true ∧ (yF s).isSome = true)) ∧
    (App.refresh bF yF syms).rows = syms.map (App.mkRow bF yF) ∧
    (SL.refresh bF yF syms).rows = syms.map (SL.mkRow bF yF) ∧
    (App.refresh bF yF syms).errorCount =
      syms.countP (fun s => (resolvedDiff bF yF s).isNone) ∧
    (SL.refresh bF yF syms).errorCount =
      syms.countP (fun s => (resolvedDiff bF yF s).isNone) := by
  refine ⟨?_, ?_, app_refresh_rows bF yF syms, sl_refresh_rows bF yF syms,
    app_refresh_errorCount bF yF syms, sl_refresh_errorCount bF yF syms⟩
  · intro s h
    exact ⟨app_mkRow_error bF yF s h, sl_mkRow_error bF yF s h⟩
  · intro s
    constructor
    · rw [app_mkRow_absDiffRaw]
      exact resolvedDiff_isSome_iff bF yF s
    · rw [sl_mkRow_absDiffRaw]
      exact resolvedDiff_isSome_iff bF yF s

/-- Witness for C3 amended: the error-branch shape at a concrete failing
symbol, with the hypothesis discharged. -/
theorem c3_error_sample_shape_witness :
    App.mkRow demoBinance demoBybit "ETHUSDT" =
      { symbol := "ETHUSDT", binance := "ERR", bybit := "ERR", absDiff := "ERR",
        binanceRaw := none, bybitRaw := none, absDiffRaw := none } ∧
    (SL.mkRow demoBinance demoBybit "ETHUSDT").absDiffRaw = none :=
  ⟨((c3_error_sample_shape demoBinance demoBybit ["ETHUSDT"]).1 "ETHUSDT"
      (Or.inl demoBinance_eth)).1,
   ((c3_error_sample_shape demoBinance demoBybit ["ETHUSDT"]).1 "ETHUSDT"
      (Or.inl demoBinance_eth)).2.2.2⟩

/-- C4 counterexample: with a single symbol whose two rates are equal, the
sample is fully resolved with difference 0, the true maximum 0 is achieved
by that first-seen symbol, yet the loop reports the empty string as owner
because the running maximum only updates on a strict increase. -/
theorem c4_counterexample :
    (App.refresh constRate constRate ["BTCUSDT"]).maxDiffSymbol = "" ∧
    (App.refresh constRate constRate ["BTCUSDT"]).rows.map Row.absDiffRaw =
      [some 0] ∧
    ("BTCUSDT" : String) ≠ "" := by
  have s1 : aggStep constRate constRate (projAgg initState) "BTCUSDT" =
      { total := 1, errors := 0, maxDiff := 0, maxSym := "" } := by
    rw [aggStep_of_some constRate constRate (projAgg initState) "BTCUSDT" 0
      (resolvedDiff_const_const "BTCUSDT")]
    rw [if_neg (show ¬(projAgg initState).maxDiff < 0 by
      simp only [projAgg, initState]; norm_num)]
    rfl
  have hagg : aggLoop constRate constRate (projAgg initState) ["BTCUSDT"] =
      { total := 1, errors := 0, maxDiff := 0, maxSym := "" } := by
    show aggStep constRate constRate (projAgg initState) "BTCUSDT" = _
    exact s1
  have hA := app_refresh_agg constRate constRate ["BTCUSDT"]
  rw [hagg] at hA
  refine ⟨congrArg Agg.maxSym hA, ?_, by decide⟩
  rw [app_refresh_rows]
  simp only [List.map_cons, List.map_nil]
  rw [app_mkRow_absDiffRaw, resolvedDiff_const_const]

/-- C4 amended: every fully resolved sample carries the absolute
difference of its two rates; the reported maximum bounds all resolved
differences and is either 0 or attained by some symbol; whenever it is
positive its owner is the first-seen symbol achieving it; active pairs
are exactly the resolved symbols; and the streamlit variant agrees. -/
theorem c4_max_difference (bF yF : String → Option ℚ) (syms : List String) :
    (∀ r ∈ (App.refresh bF yF syms).rows, ∀ a b : ℚ,
        r.binanceRaw = some a → r.bybitRaw = some b → r.absDiffRaw = some |a - b|) ∧
    (∀ r ∈ (SL.refresh bF yF syms).rows, ∀ a b : ℚ,
        r.binanceRaw = some a → r.bybitRaw = some b → r.absDiffRaw = some |a - b|) ∧
    (∀ s ∈ syms, ∀ d : ℚ, resolvedDiff bF yF s = some d →
        d ≤ (App.refresh bF yF syms).maxDiff) ∧
    ((App.refresh bF yF syms).maxDiff = 0 ∨
      ∃ s ∈ syms, resolvedDiff bF yF s = some (App.refresh bF yF syms).maxDiff) ∧
    (0 < (App.refresh bF yF syms).maxDiff →
      syms.find? (fun s =>
          decide (resolvedDiff bF yF s = some (App.refresh bF yF syms).maxDiff)) =
        some (App.refresh bF yF syms).maxDiffSymbol) ∧
    (App.refresh bF yF syms).totalSymbols - (App.refresh bF yF syms).errorCount =
      syms.countP (fun s => (resolvedDiff bF yF s).isSome) ∧
    (SL.refresh bF yF syms).maxDiff = (App.refresh bF yF syms).maxDiff ∧
    (SL.refresh bF yF syms).maxDiffSymbol = (App.refresh bF yF syms).maxDiffSymbol := by
  have hA := app_refresh_agg bF yF syms
  have hS := sl_refresh_agg bF yF syms
  have hAm : (App.refresh bF yF syms).maxDiff =
      (aggLoop bF yF (projAgg initState) syms).maxDiff := congrArg Agg.maxDiff hA
  have hAs : (App.refresh bF yF syms).maxDiffSymbol =
      (aggLoop bF yF (projAgg initState) syms).maxSym := congrArg Agg.maxSym hA
  refine ⟨?_, ?_, ?_, ?_, ?_, ?_,
    congrArg Agg.maxDiff (hS.trans hA.symm), congrArg Agg.maxSym (hS.trans hA.symm)⟩
  · intro r hr a b ha hb
    rw [app_refresh_rows] at hr
    obtain ⟨s, _, rfl⟩ := List.mem_map.mp hr
    exact app_mkRow_diff bF yF s a b ha hb
  · intro r hr a b ha hb
    rw [sl_refresh_rows] at hr
    obtain ⟨s, _, rfl⟩ := List.mem_map.mp hr
    exact sl_mkRow_diff bF yF s a b ha hb
  · intro s hs d hd
    rw [hAm]
    exact aggLoop_maxDiff_ub bF yF syms (projAgg initState) s hs d hd
  · rcases aggLoop_max_spec bF yF syms (projAgg initState) with ⟨h1, _, _⟩ | ⟨_, hex, _⟩
    · exact Or.inl (hAm.trans h1)
    · rw [hAm]
      exact Or.inr hex
  · intro hpos
    rcases aggLoop_max_spec bF yF syms (projAgg initState) with ⟨h1, _, _⟩ | ⟨_, _, hfind⟩
    · rw [hAm, h1] at hpos
      simp only [projAgg, initState] at hpos
      exact absurd hpos (lt_irrefl 0)
    · rw [hAm, hAs]
      exact hfind
  · rw [app_refresh_totalSymbols, app_refresh_errorCount]
    have h := countP_isNone_add_isSome (resolvedDiff bF yF) syms
    omega
  
/-- Witness for C4 amended: the upper-bound conjunct applied at the demo
scenario with its hypotheses discharged at a concrete symbol. -/
theorem c4_max_difference_witness :
    (5:ℚ)/100000 ≤ (App.refresh demoBinance demoBybit ["BTCUSDT", "ETHUSDT"]).maxDiff :=
  (c4_max_difference demoBinance demoBybit ["BTCUSDT", "ETHUSDT"]).2.2.1 "BTCUSDT"
    (List.mem_cons_self "BTCUSDT" ["ETHUSDT"]) (5/100000) resolvedDiff_demo_btc

/-- C9: when every resolved pair of the pass has difference exactly 0 (in
particular when no pair resolves at all), both variants report maximum
difference 0 and the empty string as owning symbol. -/
theorem c9_zero_max (bF yF : String → Option ℚ) (syms : List String)
    (h : ∀ s ∈ syms, ∀ d : ℚ, resolvedDiff bF yF s = some d → d = 0) :
    (App.refresh bF yF syms).maxDiff = 0 ∧
    (App.refresh bF yF syms).maxDiffSymbol = "" ∧
    (SL.refresh bF yF syms).maxDiff = 0 ∧
    (SL.refresh bF yF syms).maxDiffSymbol = "" := by
  have hA := app_refresh_agg bF yF syms
  have hS := sl_refresh_agg bF yF syms
  rcases aggLoop_max_spec bF yF syms (projAgg initState) with ⟨h1, h2, _⟩ | ⟨h1, hex, _⟩
  · exact ⟨(congrArg Agg.maxDiff hA).trans h1, (congrArg Agg.maxSym hA).trans h2,
      (congrArg Agg.maxDiff hS).trans h1, (congrArg Agg.maxSym hS).trans h2⟩
  · exfalso
    obtain ⟨s, hs, hdiff⟩ := hex
    have hz := h s hs _ hdiff
    rw [hz] at h1
    simp only [projAgg, initState] at h1
    exact absurd h1 (lt_irrefl 0)

/-- Witness for C9: a single symbol with equal rates on both exchanges,
the hypothesis discharged concretely. -/
theorem c9_zero_max_witness :
    (App.refresh constRate constRate ["BTCUSDT"]).maxDiff = 0 ∧
    (SL.refresh constRate constRate ["BTCUSDT"]).maxDiffSymbol = "" :=
  ⟨(c9_zero_max constRate constRate ["BTCUSDT"] (fun s _ d hd => by
      rw [resolvedDiff_const_const] at hd
      exact (Option.some.injEq 0 d).mp hd |>.symm)).1,
   (c9_zero_max constRate constRate ["BTCUSDT"] (fun s _ d hd => by
      rw [resolvedDiff_const_const] at hd
      exact (Option.some.injEq 0 d).mp hd |>.symm)).2.2.2⟩
